import Mathlib

/-!
Verification development for the ChatLab database layer
(`src/electron/main/database/index.ts`): shallow embedding of the
SQLite-backed session store and its analytics queries, together with
theorems checking the specification's claims about them.

Modelling conventions:
* a database file is a record of its three tables (`meta`, `member`,
  `message`) as Lean lists of rows;
* SQL `WHERE` clause construction (`buildTimeFilter`,
  `buildSystemMessageFilter`) is embedded as construction of a list of
  atomic conditions whose meaning is their conjunction — appending with
  `WHERE`/`AND` in the source corresponds to list append here;
* `ORDER BY` is embedded with `List.mergeSort`;
* timestamps are unix seconds as `Int`; `strftime('%H', ts, 'unixepoch',
  'localtime')` is embedded with an explicit timezone offset parameter
  (seconds east of UTC);
* JavaScript `Math.round` on a nonnegative quotient is embedded as
  `⌊q + 1/2⌋` on exact rationals;
* the filesystem holding the per-session `.db` files and their `-wal` /
  `-shm` auxiliaries is explicit state, and fallible `unlinkSync` /
  transaction bodies are parameterised by an explicit fault oracle.
-/

/-- The reserved display name of the system sentinel member
(`'系统消息'` in the source). -/
def systemSentinel : String := "系统消息"

/-- A row of the `member` table: surrogate `id`, platform-native id
(UNIQUE) and display name. -/
structure Member where
  id : Nat
  platform_id : String
  name : String
deriving DecidableEq, Repr

/-- A row of the `message` table: sender surrogate id, unix-second
timestamp, message type tag and optional content. -/
structure Message where
  sender_id : Nat
  ts : Int
  type : Nat
  content : Option String
deriving DecidableEq, Repr

/-- A row of the `meta` table. -/
structure DbMeta where
  name : String
  platform : String
  type : String
  imported_at : Int
deriving DecidableEq, Repr

/-- The contents of one session's database file. -/
structure DbState where
  meta : List DbMeta
  members : List Member
  messages : List Message
deriving DecidableEq, Repr

/-- The optional time filter `TimeFilter { startTs?, endTs? }`
(inclusive unix-second bounds). -/
structure TimeFilter where
  startTs : Option Int
  endTs : Option Int
deriving DecidableEq, Repr

/-- An atomic SQL condition appearing in the generated `WHERE` clauses:
`ts >= ?`, `ts <= ?`, or `m.name != '系统消息'`. -/
inductive Cond where
  | geTs (n : Int)
  | leTs (n : Int)
  | nonSystem
deriving DecidableEq, Repr

/-- Truth value of one atomic condition at a message timestamp and the
joined member's name. -/
def Cond.eval (ts : Int) (name : String) : Cond → Bool
  | .geTs n => n ≤ ts
  | .leTs n => ts ≤ n
  | .nonSystem => name != systemSentinel

/-- Meaning of a generated clause: the conjunction of its atomic
conditions. -/
def evalConds (conds : List Cond) (ts : Int) (name : String) : Bool :=
  conds.all (Cond.eval ts name)

/-- `buildTimeFilter`: pushes `ts >= ?` when `startTs` is present and
`ts <= ?` when `endTs` is present, in that order. -/
def buildTimeFilter (filter : Option TimeFilter) : List Cond :=
  match filter with
  | none => []
  | some f =>
    (match f.startTs with | some s => [Cond.geTs s] | none => []) ++
    (match f.endTs with | some e => [Cond.leTs e] | none => [])

/-- `buildSystemMessageFilter`: conjoins `m.name != '系统消息'` onto an
existing clause (with `AND` when a `WHERE` is already present, as a fresh
`WHERE` otherwise — in both cases one more conjunct). -/
def buildSystemMessageFilter (conds : List Cond) : List Cond :=
  conds ++ [Cond.nonSystem]

/-- The full message filter used by the analytics aggregates:
time filter conjoined with the system-sentinel exclusion. -/
def msgConds (filter : Option TimeFilter) : List Cond :=
  buildSystemMessageFilter (buildTimeFilter filter)

/-- Spec-side predicate: the inclusive start bound holds when present. -/
def startOk (filter : Option TimeFilter) (ts : Int) : Bool :=
  match filter with
  | none => true
  | some f => match f.startTs with | none => true | some s => s ≤ ts

/-- Spec-side predicate: the inclusive end bound holds when present. -/
def endOk (filter : Option TimeFilter) (ts : Int) : Bool :=
  match filter with
  | none => true
  | some f => match f.endTs with | none => true | some e => ts ≤ e

/-- Spec-side predicate: the timestamp lies inside the inclusive filter
bounds. -/
def inBounds (filter : Option TimeFilter) (ts : Int) : Bool :=
  startOk filter ts && endOk filter ts

/-- The inner join `message msg JOIN member m ON msg.sender_id = m.id`,
as the list of matching row pairs. -/
def messageMemberJoin (db : DbState) : List (Message × Member) :=
  db.messages.flatMap fun msg =>
    (db.members.filter fun m => msg.sender_id == m.id).map fun m => (msg, m)

/-- The join restricted by the generated clause (time filter conjoined
with the system exclusion): the row source of every filtered aggregate. -/
def filteredJoin (db : DbState) (filter : Option TimeFilter) :
    List (Message × Member) :=
  (messageMemberJoin db).filter fun p =>
    evalConds (msgConds filter) p.1.ts p.2.name

/-- `totalMessages` of `getMemberActivity`: `COUNT(*)` over the join
under the time filter conjoined with the system exclusion. -/
def totalNonSystemMessages (db : DbState) (filter : Option TimeFilter) : Nat :=
  (filteredJoin db filter).length

/-- JavaScript `Math.round` on an exact rational (round half towards
positive infinity). -/
def jsRound (q : ℚ) : Int := ⌊q + 1/2⌋

/-- One row of the `getMemberActivity` result. -/
structure MemberActivity where
  memberId : Nat
  platformId : String
  name : String
  messageCount : Nat
  percentage : ℚ
deriving DecidableEq, Repr

/-- Per-member matching-message count: `COUNT(msg.id)` of the
`LEFT JOIN message msg ON m.id = msg.sender_id AND <time> AND
m.name != '系统消息'` group of member `m`. -/
def memberMessageCount (db : DbState) (filter : Option TimeFilter)
    (m : Member) : Nat :=
  db.messages.countP fun msg =>
    msg.sender_id == m.id && evalConds (msgConds filter) msg.ts m.name

/-- The `GROUP BY m.id` groups surviving `WHERE m.name != '系统消息'` and
`HAVING messageCount > 0`: each remaining member row with its
matching-message count (`member.id` is the primary key, so one group per
member row). -/
def activityRows (db : DbState) (filter : Option TimeFilter) :
    List (Member × Nat) :=
  ((db.members.filter fun m => m.name != systemSentinel).map fun m =>
    (m, memberMessageCount db filter m)).filter fun p => 0 < p.2

/-- `getMemberActivity`: the surviving groups ordered by
`ORDER BY messageCount DESC`, each with the two-decimal percentage of
`totalMessages` (or 0 when `totalMessages` is 0). -/
def getMemberActivity (db : DbState) (filter : Option TimeFilter) :
    List MemberActivity :=
  let total := totalNonSystemMessages db filter
  ((activityRows db filter).mergeSort fun a b => b.2 ≤ a.2).map fun p =>
    { memberId := p.1.id
      platformId := p.1.platform_id
      name := p.1.name
      messageCount := p.2
      percentage :=
        if 0 < total then
          (jsRound ((p.2 : ℚ) / (total : ℚ) * 10000) : ℚ) / 100
        else 0 }

/-- A small concrete database used to exercise the theorems: two human
members, one system sentinel, four messages. -/
def exDb : DbState :=
  { meta := [⟨"demo", "wechat", "group", 100⟩]
    members :=
      [⟨1, "u1", "Alice"⟩, ⟨2, "u2", "Bob"⟩, ⟨3, "u3", "系统消息"⟩]
    messages :=
      [⟨1, 10, 0, some "hi"⟩, ⟨1, 20, 0, some "there"⟩,
       ⟨2, 30, 0, some "yo"⟩, ⟨3, 5, 6, none⟩] }

/-- Hour-of-day 0–23 of a unix timestamp under a fixed timezone offset
(seconds east of UTC): the embedding of
`strftime('%H', ts, 'unixepoch', 'localtime')`. -/
def localHour (tz ts : Int) : Nat := ((ts + tz).emod 86400).toNat / 3600

/-- One row of the `getHourlyActivity` result. -/
structure HourlyActivity where
  hour : Nat
  messageCount : Nat
deriving DecidableEq, Repr

/-- The `GROUP BY hour ORDER BY hour` rows of `getHourlyActivity`: one
`(hour, COUNT(*))` pair per hour value that occurs in the filtered
join. -/
def hourlyRows (tz : Int) (db : DbState) (filter : Option TimeFilter) :
    List (Nat × Nat) :=
  ((((filteredJoin db filter).map fun p =>
      localHour tz p.1.ts).dedup).mergeSort fun a b => a ≤ b).map fun h =>
    (h, (filteredJoin db filter).countP fun p => localHour tz p.1.ts == h)

/-- `getHourlyActivity`: the 24 zero-filled buckets, bucket `h` taking
its count from the grouped row for `h` when present and 0 otherwise. -/
def getHourlyActivity (tz : Int) (db : DbState)
    (filter : Option TimeFilter) : List HourlyActivity :=
  (List.range 24).map fun h =>
    match (hourlyRows tz db filter).find? fun r => r.1 == h with
    | some r => { hour := h, messageCount := r.2 }
    | none => { hour := h, messageCount := 0 }

/-- `getTimeRange`: `SELECT MIN(ts), MAX(ts) FROM message` over all
stored messages (no join, no filter); `null` exactly when either
aggregate is SQL NULL, i.e. when the table is empty. -/
def getTimeRange (db : DbState) : Option (Int × Int) :=
  match (db.messages.map Message.ts).min?, (db.messages.map Message.ts).max? with
  | some s, some e => some (s, e)
  | _, _ => none

/-- Spec-side predicate: the message's sender resolves to a member row
whose name is not the system sentinel. -/
def isNonSystemMessage (db : DbState) (msg : Message) : Bool :=
  match db.members.find? fun m => msg.sender_id == m.id with
  | some m => m.name != systemSentinel
  | none => false

/-- The joined-and-filtered condition seen from the message side: the
sender resolves to a member row passing the generated clause. -/
def senderMatches (db : DbState) (filter : Option TimeFilter)
    (msg : Message) : Bool :=
  match db.members.find? fun m => msg.sender_id == m.id with
  | some m => evalConds (msgConds filter) msg.ts m.name
  | none => false

/-- Session metadata carried by a `ParseResult`. -/
structure ParseMeta where
  name : String
  platform : String
  type : String
deriving DecidableEq, Repr

/-- One member of a `ParseResult`, keyed by platform-native id. -/
structure ParseMember where
  platformId : String
  name : String
deriving DecidableEq, Repr

/-- One message of a `ParseResult`, referencing its sender by
platform-native id. -/
structure ParseMessage where
  senderPlatformId : String
  timestamp : Int
  type : Nat
  content : Option String
deriving DecidableEq, Repr

/-- The canonical intermediate representation handed to the importer. -/
structure ParseResult where
  meta : ParseMeta
  members : List ParseMember
  messages : List ParseMessage
deriving DecidableEq, Repr

/-- The row inserted for a new platform id: AUTOINCREMENT assigns the
next surrogate id. -/
def newMemberRow (tbl : List Member) (inp : ParseMember) : Member :=
  { id := tbl.length + 1, platform_id := inp.platformId, name := inp.name }

/-- One step of the member loop of `importData`:
`INSERT OR IGNORE INTO member (platform_id, name)` (the UNIQUE
constraint on `platform_id` drops the insert when the id already exists)
followed by `UPDATE member SET name = ? WHERE platform_id = ?`. -/
def memberStep (tbl : List Member) (inp : ParseMember) : List Member :=
  (if tbl.any fun m => m.platform_id == inp.platformId then tbl
   else tbl ++ [newMemberRow tbl inp]).map fun m =>
    if m.platform_id == inp.platformId then { m with name := inp.name }
    else m

/-- The member table produced by the import member loop, starting from
the freshly created empty table. -/
def importedMembers (pr : ParseResult) : List Member :=
  pr.members.foldl memberStep []

/-- The message loop of `importData`: resolve each sender through the
`platformId -> id` map (equivalently, lookup in the final member table,
since surrogate ids never change once assigned) and insert; messages
whose sender is absent from the map are skipped. -/
def importedMessages (pr : ParseResult) : List Message :=
  pr.messages.filterMap fun msg =>
    ((importedMembers pr).find? fun m =>
      m.platform_id == msg.senderPlatformId).map fun m =>
      ({ sender_id := m.id, ts := msg.timestamp, type := msg.type,
         content := msg.content } : Message)

/-- The database file name `<sessionId>.db`. -/
def dbPath (sessionId : String) : String := sessionId ++ ".db"

/-- The write-ahead-log auxiliary file name. -/
def walPath (sessionId : String) : String := dbPath sessionId ++ "-wal"

/-- The shared-memory auxiliary file name. -/
def shmPath (sessionId : String) : String := dbPath sessionId ++ "-shm"

/-- The dataset directory: session database files keyed by session id,
plus the auxiliary `-wal`/`-shm` file names present. -/
structure FileSystem where
  dbFiles : List (String × DbState)
  auxFiles : List String
deriving DecidableEq, Repr

/-- A freshly created database: tables exist, no rows. -/
def emptyDb : DbState := { meta := [], members := [], messages := [] }

/-- `importData`: create the database file, then run the write
transaction. `txFails` models a fault thrown inside
`db.transaction(() => ...)`: the transaction rolls back, leaving the
created file with empty tables, and `importData` rethrows instead of
returning a session id. On success the meta row, the upserted members
and the resolved messages are committed and the session id returned. -/
def importData (fs : FileSystem) (sessionId : String) (now : Int)
    (pr : ParseResult) (txFails : Bool) : FileSystem × Option String :=
  if txFails then
    ({ fs with dbFiles := fs.dbFiles ++ [(sessionId, emptyDb)] }, none)
  else
    ({ fs with dbFiles := fs.dbFiles ++
        [(sessionId,
          { meta := [⟨pr.meta.name, pr.meta.platform, pr.meta.type, now⟩]
            members := importedMembers pr
            messages := importedMessages pr })] },
     some sessionId)

/-- One entry of the session catalog. -/
structure AnalysisSession where
  id : String
  name : String
  platform : String
  type : String
  importedAt : Int
  messageCount : Nat
  memberCount : Nat
deriving DecidableEq, Repr

/-- Non-system message count of a session: `COUNT(*)` over the
message–member join with the sentinel excluded. -/
def sessionMessageCount (db : DbState) : Nat :=
  (messageMemberJoin db).countP fun p => p.2.name != systemSentinel

/-- Non-system member count of a session. -/
def sessionMemberCount (db : DbState) : Nat :=
  db.members.countP fun m => m.name != systemSentinel

/-- Read one database file into a catalog entry; `none` when its `meta`
table has no row (`if (meta)` in the source skips such files). -/
def readSession (sessionId : String) (db : DbState) :
    Option AnalysisSession :=
  db.meta.head?.map fun meta =>
    { id := sessionId, name := meta.name, platform := meta.platform,
      type := meta.type, importedAt := meta.imported_at,
      messageCount := sessionMessageCount db,
      memberCount := sessionMemberCount db }

/-- `getAllSessions`: scan the `.db` files, read each, skip those whose
meta row is missing, and order by import time descending. -/
def getAllSessions (fs : FileSystem) : List AnalysisSession :=
  (fs.dbFiles.filterMap fun f => readSession f.1 f.2).mergeSort
    fun a b => b.importedAt ≤ a.importedAt

/-- `getSession`: open one database by id; `null` when the file is
absent or its meta row is missing. -/
def getSession (fs : FileSystem) (sessionId : String) :
    Option AnalysisSession :=
  (fs.dbFiles.find? fun f => f.1 == sessionId).bind fun f =>
    readSession sessionId f.2

/-- `unlinkSync` of the primary database file. -/
def removeDbFile (fs : FileSystem) (sessionId : String) : FileSystem :=
  { fs with dbFiles := fs.dbFiles.filter fun f => !(f.1 == sessionId) }

/-- `unlinkSync` of an auxiliary file. -/
def removeAuxFile (fs : FileSystem) (p : String) : FileSystem :=
  { fs with auxFiles := fs.auxFiles.filter fun q => !(q == p) }

/-- Third stage of `deleteSession`: the `-shm` file. -/
def deleteShm (faults : String → Bool) (fs : FileSystem)
    (sessionId : String) : FileSystem × Bool :=
  if fs.auxFiles.contains (shmPath sessionId) then
    if faults (shmPath sessionId) then (fs, false)
    else (removeAuxFile fs (shmPath sessionId), true)
  else (fs, true)

/-- Second stage of `deleteSession`: the `-wal` file, then the `-shm`
file. -/
def deleteAux (faults : String → Bool) (fs : FileSystem)
    (sessionId : String) : FileSystem × Bool :=
  if fs.auxFiles.contains (walPath sessionId) then
    if faults (walPath sessionId) then (fs, false)
    else deleteShm faults (removeAuxFile fs (walPath sessionId)) sessionId
  else deleteShm faults fs sessionId

/-- `deleteSession`: `unlinkSync` the `.db`, `-wal` and `-shm` files in
that order, each only when it exists, inside one `try`; the first
removal that throws (`faults` names the paths that do) aborts with
`false`, otherwise `true` is returned. -/
def deleteSession (faults : String → Bool) (fs : FileSystem)
    (sessionId : String) : FileSystem × Bool :=
  if fs.dbFiles.any fun f => f.1 == sessionId then
    if faults (dbPath sessionId) then (fs, false)
    else deleteAux faults (removeDbFile fs sessionId) sessionId
  else deleteAux faults fs sessionId

/-- A concrete `ParseResult` used to exercise the theorems: a duplicated
platform id (later name wins) and a message with an unresolvable
sender. -/
def exParse : ParseResult :=
  { meta := ⟨"demo", "wechat", "group"⟩
    members := [⟨"u1", "Alice"⟩, ⟨"u1", "Alicia"⟩, ⟨"u2", "Bob"⟩]
    messages := [⟨"u1", 10, 0, some "hi"⟩, ⟨"ghost", 11, 0, none⟩] }

/-- A one-session filesystem used to exercise the theorems. -/
def exFs : FileSystem :=
  { dbFiles := [("s1", exDb)], auxFiles := [walPath "s1"] }

/-- `exFs` after deleting its only session. -/
def exFsDeleted : FileSystem := { dbFiles := [], auxFiles := [] }

/-- C7. In the filtered aggregates the generated predicate is exactly the
conjunction of the inclusive start bound (when present), the inclusive
end bound (when present) and the system-sentinel exclusion, for every
combination of zero, one or two time-bound clauses. -/
theorem evalConds_msgConds (filter : Option TimeFilter) (ts : Int)
    (name : String) :
    evalConds (msgConds filter) ts name = true ↔
      ((∀ s, (filter.bind TimeFilter.startTs) = some s → s ≤ ts) ∧
       (∀ e, (filter.bind TimeFilter.endTs) = some e → ts ≤ e) ∧
       name ≠ systemSentinel) := by
  rcases filter with _ | ⟨_ | s, _ | e⟩ <;>
    simp [evalConds, msgConds, buildTimeFilter, buildSystemMessageFilter,
      Cond.eval, Option.bind]

/-- The generated predicate in `Bool` form: time bounds conjoined with
the sentinel exclusion. -/
theorem evalConds_msgConds_eq (filter : Option TimeFilter) (ts : Int)
    (name : String) :
    evalConds (msgConds filter) ts name =
      (inBounds filter ts && name != systemSentinel) := by
  rcases filter with _ | ⟨_ | s, _ | e⟩ <;>
    simp [evalConds, msgConds, buildTimeFilter, buildSystemMessageFilter,
      Cond.eval, inBounds, startOk, endOk, bne, decide_not, Bool.and_assoc]

/-! ### Counting lemmas for the member-activity aggregate -/

/-- Summing an indicator over a list counts the satisfying elements. -/
lemma sum_map_ite_one {β : Type} (ys : List β) (p : β → Bool) :
    (ys.map fun y => if p y then 1 else 0).sum = ys.countP p := by
  induction ys with
  | nil => simp
  | cons y ys ih =>
    by_cases h : p y <;> simp [List.countP_cons, ih, h, Nat.add_comm]

/-- Double counting of matching pairs: summing per-`x` match counts over
`xs` equals summing per-`y` match counts over `ys`. -/
lemma countP_exchange {α β : Type} (xs : List α) (ys : List β)
    (P : α → β → Bool) :
    (xs.map fun x => ys.countP fun y => P x y).sum
      = (ys.map fun y => xs.countP fun x => P x y).sum := by
  induction xs with
  | nil => simp
  | cons x xs ih =>
    simp only [List.map_cons, List.sum_cons, List.countP_cons, ih]
    rw [List.sum_map_add, ← sum_map_ite_one ys fun y => P x y, Nat.add_comm]

/-- `totalMessages` decomposed message-by-message: for each message, the
number of member rows joining to it and passing the combined filter. -/
lemma totalNonSystemMessages_eq_sum (db : DbState)
    (filter : Option TimeFilter) :
    totalNonSystemMessages db filter
      = (db.messages.map fun msg =>
          db.members.countP fun m =>
            (msg.sender_id == m.id) && evalConds (msgConds filter) msg.ts m.name).sum := by
  unfold totalNonSystemMessages filteredJoin messageMemberJoin
  induction db.messages with
  | nil => simp
  | cons msg msgs ih =>
    simp only [List.flatMap_cons, List.filter_append, List.length_append,
      List.map_cons, List.sum_cons, ih, List.filter_map]
    congr 1
    rw [List.length_map, ← List.countP_eq_length_filter, List.countP_filter]
    apply List.countP_congr
    intro m _
    simp [Function.comp, Bool.and_comm]

/-- A member row whose name is the system sentinel matches no message
under the combined filter. -/
lemma memberMessageCount_sentinel (db : DbState) (filter : Option TimeFilter)
    (m : Member) (h : m.name = systemSentinel) :
    memberMessageCount db filter m = 0 := by
  unfold memberMessageCount
  rw [List.countP_eq_zero]
  intro msg _
  simp [evalConds_msgConds_eq, h]

/-- Dropping the zero-count rows does not change the count sum. -/
lemma sum_counts_filter_pos {α : Type} (l : List (α × Nat)) :
    ((l.filter fun p => 0 < p.2).map fun p => p.2).sum
      = (l.map fun p => p.2).sum := by
  induction l with
  | nil => rfl
  | cons p l ih =>
    rw [List.filter_cons]
    rcases Nat.eq_zero_or_pos p.2 with h | h
    · have hd : decide (0 < p.2) = false := by simp [h]
      rw [hd]
      simp [ih, h]
    · have hd : decide (0 < p.2) = true := by simp [h]
      rw [hd]
      simp [ih]

/-- Splitting the per-member sum along the sentinel filter: sentinel rows
contribute zero. -/
lemma sum_memberMessageCount_filter (db : DbState)
    (filter : Option TimeFilter) :
    ((db.members.filter fun m => m.name != systemSentinel).map fun m =>
        memberMessageCount db filter m).sum
      = (db.members.map fun m => memberMessageCount db filter m).sum := by
  induction db.members with
  | nil => rfl
  | cons m ms ih =>
    by_cases h : m.name = systemSentinel
    · simp [List.filter_cons, h, ih, memberMessageCount_sentinel db filter m h]
    · simp [List.filter_cons, h, ih]


/-! ### The member-activity contract -/

/-- For a non-sentinel member the combined per-message predicate reduces
to sender match plus the inclusive time bounds. -/
lemma memberMessageCount_eq_inBounds (db : DbState)
    (filter : Option TimeFilter) (m : Member)
    (h : m.name ≠ systemSentinel) :
    memberMessageCount db filter m
      = db.messages.countP fun msg =>
          msg.sender_id == m.id && inBounds filter msg.ts := by
  unfold memberMessageCount
  apply List.countP_congr
  intro msg _
  simp [evalConds_msgConds_eq, h]

/-- A member row with at least one matching message forces a positive
`totalMessages`. -/
lemma totalNonSystemMessages_pos (db : DbState) (filter : Option TimeFilter)
    (m : Member) (hm : m ∈ db.members)
    (hpos : 0 < memberMessageCount db filter m) :
    0 < totalNonSystemMessages db filter := by
  unfold memberMessageCount at hpos
  rw [List.countP_pos_iff] at hpos
  obtain ⟨msg, hmsg, hP⟩ := hpos
  rw [Bool.and_eq_true] at hP
  have hpair : (msg, m) ∈ filteredJoin db filter := by
    rw [filteredJoin, List.mem_filter]
    refine ⟨?_, hP.2⟩
    rw [messageMemberJoin, List.mem_flatMap]
    exact ⟨msg, hmsg, List.mem_map_of_mem _ (List.mem_filter.mpr ⟨hm, hP.1⟩)⟩
  exact List.length_pos_of_mem hpair

/-- Membership description of the surviving `GROUP BY` rows. -/
lemma mem_activityRows (db : DbState) (filter : Option TimeFilter)
    (p : Member × Nat) :
    p ∈ activityRows db filter ↔
      p.1 ∈ db.members ∧ p.1.name ≠ systemSentinel ∧
        p.2 = memberMessageCount db filter p.1 ∧ 0 < p.2 := by
  unfold activityRows
  rw [List.mem_filter, List.mem_map]
  constructor
  · rintro ⟨⟨m, hm, rfl⟩, hpos⟩
    rw [List.mem_filter] at hm
    refine ⟨hm.1, ?_, rfl, by simpa using hpos⟩
    simpa using hm.2
  · rintro ⟨hmem, hname, hcnt, hpos⟩
    refine ⟨⟨p.1, List.mem_filter.mpr ⟨hmem, by simpa using hname⟩, ?_⟩,
      by simpa using hpos⟩
    rw [← hcnt]

/-- C1. `getMemberActivity` is sorted descending by message count; every
entry comes from a non-sentinel member, counts exactly that member's
messages inside the inclusive filter bounds, is positive, and carries the
two-decimal rounded percentage of the filtered non-system total; every
non-sentinel member with a matching message contributes an entry; and
with distinct member ids there is exactly one entry per member. -/
theorem getMemberActivity_spec (db : DbState) (filter : Option TimeFilter)
    (hnd : (db.members.map Member.id).Nodup) :
    (getMemberActivity db filter).Sorted
        (fun a b => b.messageCount ≤ a.messageCount)
    ∧ (∀ e ∈ getMemberActivity db filter,
        ∃ m ∈ db.members,
          e.memberId = m.id ∧ e.platformId = m.platform_id ∧
          e.name = m.name ∧ m.name ≠ systemSentinel ∧
          e.messageCount = db.messages.countP
            (fun msg => msg.sender_id == m.id && inBounds filter msg.ts) ∧
          0 < e.messageCount ∧
          e.percentage =
            (jsRound ((e.messageCount : ℚ) /
              (totalNonSystemMessages db filter : ℚ) * 10000) : ℚ) / 100)
    ∧ (∀ m ∈ db.members, m.name ≠ systemSentinel →
        0 < db.messages.countP
          (fun msg => msg.sender_id == m.id && inBounds filter msg.ts) →
        ∃ e ∈ getMemberActivity db filter, e.memberId = m.id ∧
          e.messageCount = db.messages.countP
            (fun msg => msg.sender_id == m.id && inBounds filter msg.ts))
    ∧ ((getMemberActivity db filter).map MemberActivity.memberId).Nodup := by
  refine ⟨?_, ?_, ?_, ?_⟩
  · -- sortedness
    unfold getMemberActivity
    rw [List.Sorted, List.pairwise_map]
    have htrans : ∀ (a b c : Member × Nat),
        decide (b.2 ≤ a.2) = true → decide (c.2 ≤ b.2) = true →
          decide (c.2 ≤ a.2) = true := by
      intro a b c h1 h2
      simp only [decide_eq_true_eq] at *
      omega
    have htotal : ∀ (a b : Member × Nat),
        (decide (b.2 ≤ a.2) || decide (a.2 ≤ b.2)) = true := by
      intro a b
      simp [Nat.le_total]
    have hs := List.sorted_mergeSort htrans htotal (activityRows db filter)
    exact hs.imp fun h => by simpa using h
  · -- soundness of each entry
    intro e he
    unfold getMemberActivity at he
    rw [List.mem_map] at he
    obtain ⟨p, hp, rfl⟩ := he
    rw [(List.mergeSort_perm (activityRows db filter) _).mem_iff,
      mem_activityRows] at hp
    obtain ⟨hmem, hname, hcnt, hpos⟩ := hp
    have htot : 0 < totalNonSystemMessages db filter :=
      totalNonSystemMessages_pos db filter p.1 hmem (hcnt ▸ hpos)
    refine ⟨p.1, hmem, rfl, rfl, rfl, hname, ?_, hpos, ?_⟩
    · rw [hcnt, memberMessageCount_eq_inBounds db filter p.1 hname]
    · simp only [if_pos htot]
  · -- completeness
    intro m hm hname hpos
    have hcnt := memberMessageCount_eq_inBounds db filter m hname
    have hmem : (m, memberMessageCount db filter m) ∈ activityRows db filter := by
      rw [mem_activityRows]
      exact ⟨hm, hname, rfl, by rw [hcnt]; exact hpos⟩
    have hmem' :
        (m, memberMessageCount db filter m) ∈
          (activityRows db filter).mergeSort fun a b => b.2 ≤ a.2 := by
      rw [(List.mergeSort_perm (activityRows db filter) _).mem_iff]
      exact hmem
    unfold getMemberActivity
    refine ⟨_, List.mem_map_of_mem _ hmem', rfl, ?_⟩
    simpa using hcnt
  · -- one entry per member id
    have heq :
        (getMemberActivity db filter).map MemberActivity.memberId
          = ((activityRows db filter).mergeSort fun a b => b.2 ≤ a.2).map
              fun p => p.1.id := by
      unfold getMemberActivity
      rw [List.map_map]
      rfl
    rw [heq]
    have hperm :
        (((activityRows db filter).mergeSort fun a b => b.2 ≤ a.2).map
            fun p => p.1.id).Perm
          ((activityRows db filter).map fun p => p.1.id) :=
      (List.mergeSort_perm (activityRows db filter) _).map _
    rw [hperm.nodup_iff]
    have hsub1 :
        ((activityRows db filter).map fun p => p.1.id).Sublist
          ((((db.members.filter fun m => m.name != systemSentinel).map fun m =>
              (m, memberMessageCount db filter m)).map fun p => p.1.id)) :=
      (List.filter_sublist _).map _
    have heq2 :
        (((db.members.filter fun m => m.name != systemSentinel).map fun m =>
            (m, memberMessageCount db filter m)).map fun p => p.1.id)
          = (db.members.filter fun m => m.name != systemSentinel).map
              Member.id := by
      rw [List.map_map]
      rfl
    have hsub2 :
        ((db.members.filter fun m => m.name != systemSentinel).map
            Member.id).Sublist (db.members.map Member.id) :=
      (List.filter_sublist _).map _
    exact hsub1.nodup (heq2 ▸ hsub2.nodup hnd)

/-- Closed instance of the member-activity contract on `exDb`. -/
theorem getMemberActivity_spec_witness :
    (exDb.members.map Member.id).Nodup ∧
    (getMemberActivity exDb none).Sorted
      (fun a b => b.messageCount ≤ a.messageCount) :=
  ⟨by decide, (getMemberActivity_spec exDb none (by decide)).1⟩

/-! ### The hourly-activity contract -/

/-- `find?` by equality returns the sought value exactly when present. -/
lemma find?_beq_nat (l : List Nat) (h : Nat) :
    (l.find? fun k => k == h) = if h ∈ l then some h else none := by
  induction l with
  | nil => simp
  | cons k l ih =>
    by_cases hk : k = h
    · subst hk
      rw [List.find?_cons_of_pos _ (by simp)]
      simp
    · rw [List.find?_cons_of_neg _ (by simpa using hk), ih]
      by_cases hm : h ∈ l <;> simp [List.mem_cons, hm, Ne.symm hk]

/-- With distinct member ids, filtering by a sender id yields at most the
first (hence only) matching row. -/
lemma filter_find?_of_nodup (l : List Member)
    (hnd : (l.map Member.id).Nodup) (s : Nat) :
    l.filter (fun m => s == m.id) = (l.find? fun m => s == m.id).toList := by
  induction l with
  | nil => rfl
  | cons m l ih =>
    rw [List.map_cons, List.nodup_cons] at hnd
    by_cases hs : s = m.id
    · rw [List.filter_cons_of_pos (by simpa using hs),
        List.find?_cons_of_pos _ (by simpa using hs)]
      have hempty : l.filter (fun m' => s == m'.id) = [] := by
        rw [List.filter_eq_nil_iff]
        intro m' hm'
        simp only [beq_iff_eq]
        intro he
        apply hnd.1
        have hid : m'.id = m.id := by rw [← he, hs]
        exact hid ▸ List.mem_map_of_mem Member.id hm'
      rw [hempty]
      rfl
    · rw [List.filter_cons_of_neg (by simpa using hs),
        List.find?_cons_of_neg _ (by simpa using hs)]
      exact ih hnd.2

/-- With distinct member ids, counting filtered join rows by a
message-side predicate equals counting messages whose resolved sender
passes the generated clause. -/
lemma countP_filteredJoin (db : DbState) (filter : Option TimeFilter)
    (hnd : (db.members.map Member.id).Nodup) (q : Message → Bool) :
    (filteredJoin db filter).countP (fun p => q p.1)
      = db.messages.countP
          fun msg => senderMatches db filter msg && q msg := by
  unfold filteredJoin messageMemberJoin senderMatches
  induction db.messages with
  | nil => rfl
  | cons msg msgs ih =>
    rw [List.flatMap_cons, List.filter_append, List.countP_append, ih,
      List.countP_cons, Nat.add_comm]
    congr 1
    rw [List.countP_filter, List.countP_map,
      filter_find?_of_nodup db.members hnd msg.sender_id]
    cases hf : db.members.find? fun m => msg.sender_id == m.id with
    | none => simp
    | some m0 => simp [List.countP_cons, Bool.and_comm]

/-- The joined clause seen from the message side is: non-system sender
and inside the inclusive bounds. -/
lemma senderMatches_eq (db : DbState) (filter : Option TimeFilter)
    (msg : Message) :
    senderMatches db filter msg
      = (isNonSystemMessage db msg && inBounds filter msg.ts) := by
  unfold senderMatches isNonSystemMessage
  cases db.members.find? fun m => msg.sender_id == m.id with
  | none => simp
  | some m0 =>
    show evalConds (msgConds filter) msg.ts m0.name
      = ((m0.name != systemSentinel) && inBounds filter msg.ts)
    rw [evalConds_msgConds_eq]
    exact Bool.and_comm _ _

/-- C2. The message counts reported by `getMemberActivity` sum to
`totalNonSystemMessages` under the same filter, and (with distinct
member ids, as the primary key guarantees) that total is the number of
stored messages under the filter whose sender is not the system
sentinel. -/
theorem getMemberActivity_sum_eq_total (db : DbState)
    (filter : Option TimeFilter) :
    (((getMemberActivity db filter).map fun e => e.messageCount).sum
      = totalNonSystemMessages db filter)
    ∧ ((db.members.map Member.id).Nodup →
        totalNonSystemMessages db filter
          = db.messages.countP (fun msg =>
              isNonSystemMessage db msg && inBounds filter msg.ts)) := by
  constructor
  swap
  · intro hnd
    have h := countP_filteredJoin db filter hnd fun _ => true
    rw [List.countP_true] at h
    rw [totalNonSystemMessages, h]
    apply List.countP_congr
    intro msg _
    rw [Bool.and_true, senderMatches_eq]
  unfold getMemberActivity
  rw [List.map_map]
  have hperm :
      (((activityRows db filter).mergeSort fun a b => b.2 ≤ a.2).map
          fun p => p.2).Perm
        ((activityRows db filter).map fun p => p.2) :=
    (List.mergeSort_perm (activityRows db filter) _).map _
  have h1 := hperm.sum_eq
  calc (((activityRows db filter).mergeSort fun a b => b.2 ≤ a.2).map
          ((fun e => e.messageCount) ∘ fun p =>
            ({ memberId := p.1.id, platformId := p.1.platform_id,
               name := p.1.name, messageCount := p.2,
               percentage :=
                 if 0 < totalNonSystemMessages db filter then
                   (jsRound ((p.2 : ℚ) / (totalNonSystemMessages db filter : ℚ) * 10000) : ℚ) / 100
                 else 0 } : MemberActivity))).sum
      = (((activityRows db filter).mergeSort fun a b => b.2 ≤ a.2).map
          fun p => p.2).sum := by rfl
    _ = ((activityRows db filter).map fun p => p.2).sum := h1
    _ = totalNonSystemMessages db filter := by
        unfold activityRows
        rw [sum_counts_filter_pos, List.map_map]
        have h2 : ((fun p => p.2) ∘ fun m =>
            (m, memberMessageCount db filter m)) =
            fun m => memberMessageCount db filter m := rfl
        rw [h2, sum_memberMessageCount_filter db filter,
          totalNonSystemMessages_eq_sum db filter]
        exact countP_exchange db.members db.messages fun m msg =>
          (msg.sender_id == m.id) && evalConds (msgConds filter) msg.ts m.name

/-- Looking a bucket up among the grouped rows yields its count exactly
when the count is positive. -/
lemma find?_hourlyRows (tz : Int) (db : DbState) (filter : Option TimeFilter)
    (h : Nat) :
    ((hourlyRows tz db filter).find? fun r => r.1 == h)
      = if 0 < ((filteredJoin db filter).countP fun p =>
            localHour tz p.1.ts == h)
        then some (h, (filteredJoin db filter).countP fun p =>
            localHour tz p.1.ts == h)
        else none := by
  unfold hourlyRows
  rw [List.find?_map]
  have hcomp : ((fun r : Nat × Nat => r.1 == h) ∘ fun k =>
      (k, (filteredJoin db filter).countP fun p => localHour tz p.1.ts == k))
      = fun k => k == h := rfl
  rw [hcomp, find?_beq_nat]
  have hmem :
      (h ∈ (((filteredJoin db filter).map fun p =>
          localHour tz p.1.ts).dedup).mergeSort fun a b => a ≤ b) ↔
        0 < ((filteredJoin db filter).countP fun p =>
          localHour tz p.1.ts == h) := by
    rw [(List.mergeSort_perm _ _).mem_iff, List.mem_dedup, List.mem_map,
      List.countP_pos_iff]
    constructor
    · rintro ⟨p, hp, rfl⟩
      exact ⟨p, hp, by simp⟩
    · rintro ⟨p, hp, he⟩
      exact ⟨p, hp, by simpa using he⟩
  by_cases hin : h ∈ (((filteredJoin db filter).map fun p =>
      localHour tz p.1.ts).dedup).mergeSort fun a b => a ≤ b
  · rw [if_pos hin, if_pos (hmem.mp hin)]
    rfl
  · rw [if_neg hin, if_neg fun hc => hin (hmem.mpr hc)]
    rfl

/-- The bucket count in message terms. -/
lemma hour_count_eq (tz : Int) (db : DbState) (filter : Option TimeFilter)
    (hnd : (db.members.map Member.id).Nodup) (i : Nat) :
    ((filteredJoin db filter).countP fun p => localHour tz p.1.ts == i)
      = db.messages.countP fun msg =>
          isNonSystemMessage db msg && inBounds filter msg.ts &&
            (localHour tz msg.ts == i) := by
  have h := countP_filteredJoin db filter hnd fun msg => localHour tz msg.ts == i
  refine Eq.trans h ?_
  apply List.countP_congr
  intro msg _
  rw [senderMatches_eq, Bool.and_assoc]

/-- C3. `getHourlyActivity` returns exactly 24 buckets whose `hour`
fields are `0..23` in ascending order; bucket `i` counts the non-system
messages inside the inclusive filter bounds whose local hour is `i`, and
absent hours carry count 0. -/
theorem getHourlyActivity_spec (tz : Int) (db : DbState)
    (filter : Option TimeFilter)
    (hnd : (db.members.map Member.id).Nodup) :
    (getHourlyActivity tz db filter).length = 24
    ∧ ∀ (i : Nat) (hi : i < (getHourlyActivity tz db filter).length),
        ((getHourlyActivity tz db filter).get ⟨i, hi⟩).hour = i
        ∧ ((getHourlyActivity tz db filter).get ⟨i, hi⟩).messageCount
            = db.messages.countP fun msg =>
                isNonSystemMessage db msg && inBounds filter msg.ts &&
                  (localHour tz msg.ts == i) := by
  constructor
  · unfold getHourlyActivity
    rw [List.length_map, List.length_range]
  · intro i hi
    have hget : (getHourlyActivity tz db filter).get ⟨i, hi⟩
        = match (hourlyRows tz db filter).find? fun r => r.1 == i with
          | some r => { hour := i, messageCount := r.2 }
          | none => { hour := i, messageCount := 0 } := by
      simp only [getHourlyActivity, List.get_eq_getElem, List.getElem_map,
        List.getElem_range]
    rw [hget, find?_hourlyRows]
    by_cases hpos : 0 < ((filteredJoin db filter).countP fun p =>
        localHour tz p.1.ts == i)
    · rw [if_pos hpos]
      exact ⟨rfl, hour_count_eq tz db filter hnd i⟩
    · rw [if_neg hpos]
      refine ⟨rfl, ?_⟩
      rw [← hour_count_eq tz db filter hnd i]
      have h0 : ((filteredJoin db filter).countP fun p =>
          localHour tz p.1.ts == i) = 0 := by omega
      rw [h0]

/-- Closed instance of the hourly-activity contract on `exDb`. -/
theorem getHourlyActivity_spec_witness :
    (exDb.members.map Member.id).Nodup ∧
    (getHourlyActivity 0 exDb none).length = 24 :=
  ⟨by decide, (getHourlyActivity_spec 0 exDb none (by decide)).1⟩

/-! ### The time-range contract -/

/-- C4. `getTimeRange` is `none` exactly when the session stores no
messages, and otherwise returns the minimum and maximum timestamp over
all stored messages — every stored message (the system sentinel's
included, with no time filter applied) lies between the returned bounds,
and both bounds are attained by stored messages. -/
theorem getTimeRange_spec (db : DbState) :
    (getTimeRange db = none ↔ db.messages = [])
    ∧ ∀ s e, getTimeRange db = some (s, e) →
        ((∀ msg ∈ db.messages, s ≤ msg.ts ∧ msg.ts ≤ e)
         ∧ (∃ msg ∈ db.messages, msg.ts = s)
         ∧ (∃ msg ∈ db.messages, msg.ts = e)) := by
  constructor
  · constructor
    · intro h
      unfold getTimeRange at h
      cases hmin : (db.messages.map Message.ts).min? with
      | none =>
        rw [List.min?_eq_none_iff, List.map_eq_nil_iff] at hmin
        exact hmin
      | some s =>
        cases hmax : (db.messages.map Message.ts).max? with
        | none =>
          rw [List.max?_eq_none_iff, List.map_eq_nil_iff] at hmax
          exact hmax
        | some e =>
          rw [hmin, hmax] at h
          exact absurd h (by simp)
    · intro h
      unfold getTimeRange
      rw [h]
      rfl
  · intro s e h
    unfold getTimeRange at h
    cases hmin : (db.messages.map Message.ts).min? with
    | none =>
      rw [hmin] at h
      simp at h
    | some s' =>
      cases hmax : (db.messages.map Message.ts).max? with
      | none =>
        rw [hmin, hmax] at h
        simp at h
      | some e' =>
        rw [hmin, hmax] at h
        simp only [Option.some.injEq, Prod.mk.injEq] at h
        obtain ⟨rfl, rfl⟩ := h
        have hminmem := List.min?_mem (fun a b => min_choice a b) hmin
        have hminle := (List.le_min?_iff (fun a b c => le_min_iff) hmin).mp
          (le_refl s')
        have hmaxmem := List.max?_mem (fun a b => max_choice a b) hmax
        have hmaxle := (List.max?_le_iff (fun a b c => max_le_iff) hmax).mp
          (le_refl e')
        refine ⟨?_, ?_, ?_⟩
        · intro msg hmsg
          exact ⟨hminle _ (List.mem_map_of_mem Message.ts hmsg),
            hmaxle _ (List.mem_map_of_mem Message.ts hmsg)⟩
        · obtain ⟨msg, hmsg, hts⟩ := List.mem_map.mp hminmem
          exact ⟨msg, hmsg, hts⟩
        · obtain ⟨msg, hmsg, hts⟩ := List.mem_map.mp hmaxmem
          exact ⟨msg, hmsg, hts⟩

/-- Closed instance of the time-range contract on `exDb`: the range
spans the sentinel's message at timestamp 5. -/
theorem getTimeRange_spec_witness :
    getTimeRange exDb = some (5, 30) ∧
    ∀ msg ∈ exDb.messages, 5 ≤ msg.ts ∧ msg.ts ≤ 30 :=
  ⟨by decide, ((getTimeRange_spec exDb).2 5 30 (by decide)).1⟩

/-! ### Import atomicity -/

/-- C5. When the write transaction fails, `importData` propagates the
failure (returns no session id) and the catalog is unchanged: the
created file holds no meta row, so `getAllSessions` skips it. -/
theorem importData_atomic (fs : FileSystem) (sessionId : String)
    (now : Int) (pr : ParseResult) :
    (importData fs sessionId now pr true).2 = none
    ∧ getAllSessions (importData fs sessionId now pr true).1
        = getAllSessions fs := by
  refine ⟨rfl, ?_⟩
  unfold getAllSessions importData
  rw [if_pos rfl]
  simp [List.filterMap_append, readSession, emptyDb]

/-! ### The member upsert -/

/-- `filterMap` keeps exactly the inputs mapped to `some`. -/
lemma length_filterMap_eq_countP {α β : Type} (f : α → Option β)
    (l : List α) :
    (l.filterMap f).length = l.countP fun a => (f a).isSome := by
  induction l with
  | nil => rfl
  | cons a l ih =>
    rw [List.filterMap_cons, List.countP_cons]
    cases hf : f a with
    | none => simp [ih]
    | some b => simp [ih, Nat.add_comm]

/-- The platform ids after one upsert step: unchanged when the id was
present, extended by the new id otherwise. -/
lemma memberStep_map_platform_id (tbl : List Member) (inp : ParseMember) :
    (memberStep tbl inp).map Member.platform_id
      = if tbl.any fun m => m.platform_id == inp.platformId
        then tbl.map Member.platform_id
        else tbl.map Member.platform_id ++ [inp.platformId] := by
  unfold memberStep
  have hupd : ∀ l : List Member,
      (l.map fun m =>
        if m.platform_id == inp.platformId then { m with name := inp.name }
        else m).map Member.platform_id = l.map Member.platform_id := by
    intro l
    rw [List.map_map]
    apply List.map_congr_left
    intro m _
    by_cases hm : m.platform_id = inp.platformId <;> simp [hm]
  by_cases h : tbl.any fun m => m.platform_id == inp.platformId
  · rw [if_pos h, if_pos h, hupd]
  · rw [if_neg h, if_neg h, hupd, List.map_append]
    rfl

/-- Membership of a platform id after one upsert step. -/
lemma mem_platform_ids_memberStep (tbl : List Member) (inp : ParseMember)
    (p : String) :
    (p ∈ (memberStep tbl inp).map Member.platform_id)
      ↔ (p ∈ tbl.map Member.platform_id ∨ p = inp.platformId) := by
  rw [memberStep_map_platform_id]
  by_cases h : tbl.any fun m => m.platform_id == inp.platformId
  · rw [if_pos h]
    constructor
    · exact Or.inl
    · rintro (hp | rfl)
      · exact hp
      · rw [List.any_eq_true] at h
        obtain ⟨m, hm, he⟩ := h
        rw [beq_iff_eq] at he
        exact he ▸ List.mem_map_of_mem Member.platform_id hm
  · rw [if_neg h]
    simp [List.mem_append]

/-- Membership of a platform id after the whole member loop. -/
lemma mem_platform_ids_foldl (l : List ParseMember) (tbl : List Member)
    (p : String) :
    (p ∈ (l.foldl memberStep tbl).map Member.platform_id)
      ↔ (p ∈ tbl.map Member.platform_id
         ∨ p ∈ l.map ParseMember.platformId) := by
  induction l generalizing tbl with
  | nil => simp
  | cons a l ih =>
    rw [List.foldl_cons, ih, mem_platform_ids_memberStep]
    simp only [List.map_cons, List.mem_cons]
    tauto

/-- One upsert step preserves distinctness of platform ids (the UNIQUE
constraint). -/
lemma nodup_platform_ids_memberStep (tbl : List Member) (inp : ParseMember)
    (h : (tbl.map Member.platform_id).Nodup) :
    ((memberStep tbl inp).map Member.platform_id).Nodup := by
  rw [memberStep_map_platform_id]
  by_cases hc : tbl.any fun m => m.platform_id == inp.platformId
  · rw [if_pos hc]
    exact h
  · rw [if_neg hc]
    rw [List.nodup_append]
    refine ⟨h, List.nodup_singleton _, ?_⟩
    intro x hx hxs
    rw [List.mem_singleton] at hxs
    subst hxs
    apply hc
    rw [List.mem_map] at hx
    obtain ⟨m, hm, he⟩ := hx
    exact List.any_eq_true.mpr ⟨m, hm, by simp [he]⟩

/-- The whole member loop yields distinct platform ids. -/
lemma nodup_platform_ids_foldl (l : List ParseMember) (tbl : List Member)
    (h : (tbl.map Member.platform_id).Nodup) :
    ((l.foldl memberStep tbl).map Member.platform_id).Nodup := by
  induction l generalizing tbl with
  | nil => exact h
  | cons a l ih => exact ih _ (nodup_platform_ids_memberStep tbl a h)

/-- In a table with distinct platform ids, each id occurs on exactly one
row. -/
lemma countP_platform_id (l : List Member)
    (h : (l.map Member.platform_id).Nodup) (p : String) :
    (l.countP fun m => m.platform_id == p)
      = if p ∈ l.map Member.platform_id then 1 else 0 := by
  induction l with
  | nil => simp
  | cons m l ih =>
    rw [List.map_cons, List.nodup_cons] at h
    rw [List.countP_cons, ih h.2]
    by_cases hm : m.platform_id = p
    · subst hm
      have hnot : m.platform_id ∉ l.map Member.platform_id := h.1
      simp [hnot]
    · have hne : ¬p = m.platform_id := fun he => hm he.symm
      simp [hm, List.mem_cons, hne]

/-- The display name found for a platform id after one upsert step: the
incoming name for the upserted id, unchanged otherwise. -/
lemma find?_memberStep_name (tbl : List Member) (inp : ParseMember)
    (p : String) :
    ((memberStep tbl inp).find? fun m => m.platform_id == p).map Member.name
      = if p = inp.platformId then some inp.name
        else (tbl.find? fun m => m.platform_id == p).map Member.name := by
  unfold memberStep
  rw [List.find?_map]
  have hq : ((fun m : Member => m.platform_id == p) ∘ fun m =>
      if m.platform_id == inp.platformId then { m with name := inp.name }
      else m) = fun m : Member => m.platform_id == p := by
    funext m
    by_cases hm : m.platform_id = inp.platformId <;> simp [Function.comp, hm]
  rw [hq, Option.map_map]
  by_cases hin : p = inp.platformId
  · rw [if_pos hin]
    by_cases hc : tbl.any fun m => m.platform_id == inp.platformId
    · rw [if_pos hc]
      have hex : ∃ m0, tbl.find? (fun m => m.platform_id == p) = some m0 := by
        rw [← Option.isSome_iff_exists, List.find?_isSome]
        rw [List.any_eq_true] at hc
        obtain ⟨m, hm, he⟩ := hc
        refine ⟨m, hm, ?_⟩
        rw [hin]
        exact he
      obtain ⟨m0, hm0⟩ := hex
      rw [hm0]
      have hpid := List.find?_some hm0
      rw [beq_iff_eq] at hpid
      have hpid2 : m0.platform_id = inp.platformId := by rw [hpid, hin]
      simp [Function.comp, hpid2]
    · rw [if_neg hc]
      have hnone : tbl.find? (fun m => m.platform_id == p) = none := by
        rw [List.find?_eq_none]
        intro x hx hpx
        apply hc
        rw [beq_iff_eq] at hpx
        exact List.any_eq_true.mpr ⟨x, hx, by simp [hpx, ← hin]⟩
      rw [List.find?_append, hnone]
      have hnewpos : ([newMemberRow tbl inp].find?
            fun m => m.platform_id == p) = some (newMemberRow tbl inp) := by
        apply List.find?_cons_of_pos
        simp [hin, newMemberRow]
      rw [hnewpos]
      simp [Function.comp, newMemberRow]
  · rw [if_neg hin]
    have hmap0 : ∀ hm0 : Option Member,
        (∀ m0, hm0 = some m0 → (m0.platform_id == p) = true) →
        hm0.map (Member.name ∘ fun m =>
          if m.platform_id == inp.platformId then { m with name := inp.name }
          else m) = hm0.map Member.name := by
      intro hm0 hp0
      cases hm0 with
      | none => rfl
      | some m0 =>
        have hpid := hp0 m0 rfl
        rw [beq_iff_eq] at hpid
        have hne : ¬m0.platform_id = inp.platformId := by
          rw [hpid]
          exact fun h => hin h
        simp [Function.comp, hne]
    by_cases hc : tbl.any fun m => m.platform_id == inp.platformId
    · rw [if_pos hc]
      exact hmap0 _ fun m0 hm0 => by simpa using List.find?_some hm0
    · rw [if_neg hc, List.find?_append]
      have hnew : ([newMemberRow tbl inp].find?
            fun m => m.platform_id == p) = none := by
        apply List.find?_cons_of_neg
        simp only [newMemberRow, beq_iff_eq]
        exact fun h => hin h.symm
      rw [hnew, Option.or_none]
      exact hmap0 _ fun m0 hm0 => by simpa using List.find?_some hm0

/-- After the whole member loop the display name recorded for a platform
id is the one of its last occurrence in the input ("latest name wins"),
falling back to the initial table. -/
lemma find?_name_foldl (l : List ParseMember) (tbl : List Member)
    (p : String) :
    ((l.foldl memberStep tbl).find? fun m => m.platform_id == p).map
        Member.name
      = ((l.reverse.find? fun i => i.platformId == p).map
          ParseMember.name).or
          ((tbl.find? fun m => m.platform_id == p).map Member.name) := by
  induction l generalizing tbl with
  | nil => simp
  | cons a l ih =>
    rw [List.foldl_cons, ih, find?_memberStep_name, List.reverse_cons,
      List.find?_append]
    cases hl : l.reverse.find? fun i => i.platformId == p with
    | some i => simp [hl]
    | none =>
      simp only [Option.none_or, Option.map_none']
      by_cases hp : p = a.platformId
      · rw [if_pos hp]
        have ha : ([a].find? fun i => i.platformId == p) = some a := by
          apply List.find?_cons_of_pos
          simp [hp]
        rw [ha]
        rfl
      · rw [if_neg hp]
        have ha : ([a].find? fun i => i.platformId == p) = none := by
          apply List.find?_cons_of_neg
          simp
          exact fun h => hp h.symm
        rw [ha]
        rfl

/-- C8. `importData` creates exactly one member row per platform-native
id occurring in the `ParseResult`'s member list, and the stored display
name is the one carried by the id's last occurrence. -/
theorem importData_upsert_latest_name (pr : ParseResult) (p : String) :
    ((importedMembers pr).countP fun m => m.platform_id == p)
      = (if p ∈ pr.members.map ParseMember.platformId then 1 else 0)
    ∧ ((importedMembers pr).find? fun m => m.platform_id == p).map
          Member.name
        = (pr.members.reverse.find? fun i => i.platformId == p).map
            ParseMember.name := by
  constructor
  · rw [importedMembers,
      countP_platform_id _ (nodup_platform_ids_foldl pr.members [] (by simp)) p]
    have hiff := mem_platform_ids_foldl pr.members [] p
    simp only [List.map_nil, List.not_mem_nil, false_or] at hiff
    simp [hiff]
  · rw [importedMembers, find?_name_foldl]
    simp

/-- A sender platform id resolves through the member map exactly when it
occurs in the `ParseResult`'s member list. -/
lemma find?_importedMembers_isSome (pr : ParseResult) (p : String) :
    ((importedMembers pr).find? fun m => m.platform_id == p).isSome
      = pr.members.any fun mi => mi.platformId == p := by
  rw [Bool.eq_iff_iff, List.find?_isSome, List.any_eq_true]
  constructor
  · rintro ⟨m, hm, he⟩
    rw [beq_iff_eq] at he
    have hmem : p ∈ (importedMembers pr).map Member.platform_id :=
      he ▸ List.mem_map_of_mem Member.platform_id hm
    rw [importedMembers, mem_platform_ids_foldl] at hmem
    rcases hmem with h | h
    · simp at h
    · rw [List.mem_map] at h
      obtain ⟨mi, hmi, he2⟩ := h
      exact ⟨mi, hmi, by simp [he2]⟩
  · rintro ⟨mi, hmi, he⟩
    rw [beq_iff_eq] at he
    have hmem : p ∈ (importedMembers pr).map Member.platform_id := by
      rw [importedMembers, mem_platform_ids_foldl]
      exact Or.inr (he ▸ List.mem_map_of_mem ParseMember.platformId hmi)
    rw [List.mem_map] at hmem
    obtain ⟨m, hm, he2⟩ := hmem
    exact ⟨m, hm, by simp [he2]⟩

/-- C6. Messages whose sender platform id is absent from the member list
are silently dropped (exactly the resolvable ones are stored), while the
importer still succeeds returning the session id, and every stored
message's sender surrogate id references a member row of the same
session. -/
theorem importData_drops_unresolved (fs : FileSystem) (sessionId : String)
    (now : Int) (pr : ParseResult) :
    (importData fs sessionId now pr false).2 = some sessionId
    ∧ (importedMessages pr).length
        = pr.messages.countP (fun msg =>
            pr.members.any fun mi => mi.platformId == msg.senderPlatformId)
    ∧ ∀ stored ∈ importedMessages pr,
        ∃ m ∈ importedMembers pr, stored.sender_id = m.id := by
  refine ⟨rfl, ?_, ?_⟩
  · rw [importedMessages, length_filterMap_eq_countP]
    apply List.countP_congr
    intro msg _
    have hiff := find?_importedMembers_isSome pr msg.senderPlatformId
    cases hf : (importedMembers pr).find? fun m =>
        m.platform_id == msg.senderPlatformId with
    | none =>
      rw [hf] at hiff
      simpa using hiff
    | some m =>
      rw [hf] at hiff
      simpa using hiff
  · intro stored hstored
    rw [importedMessages, List.mem_filterMap] at hstored
    obtain ⟨msg, hmsg, hmap⟩ := hstored
    cases hf : (importedMembers pr).find? fun m =>
        m.platform_id == msg.senderPlatformId with
    | none =>
      rw [hf] at hmap
      simp at hmap
    | some m =>
      rw [hf] at hmap
      simp only [Option.map_some', Option.some.injEq] at hmap
      exact ⟨m, List.mem_of_find?_eq_some hf, by rw [← hmap]⟩

/-! ### Session deletion -/

/-- `deleteShm` on success: the `-shm` file is gone, the database files
are untouched, and no auxiliary file appears from nowhere. -/
lemma deleteShm_true (faults : String → Bool) (fs : FileSystem)
    (sessionId : String) (fs' : FileSystem)
    (h : deleteShm faults fs sessionId = (fs', true)) :
    shmPath sessionId ∉ fs'.auxFiles
    ∧ fs'.dbFiles = fs.dbFiles
    ∧ ∀ q ∈ fs'.auxFiles, q ∈ fs.auxFiles := by
  unfold deleteShm at h
  by_cases hc : fs.auxFiles.contains (shmPath sessionId)
  · rw [if_pos hc] at h
    by_cases hf : faults (shmPath sessionId)
    · rw [if_pos hf] at h
      simp at h
    · rw [if_neg hf] at h
      have h1 : removeAuxFile fs (shmPath sessionId) = fs' :=
        congrArg Prod.fst h
      subst h1
      refine ⟨?_, rfl, ?_⟩
      · intro hmem
        simp [removeAuxFile, List.mem_filter] at hmem
      · intro q hq
        simp only [removeAuxFile, List.mem_filter] at hq
        exact hq.1
  · rw [if_neg hc] at h
    have h1 : fs = fs' := congrArg Prod.fst h
    subst h1
    refine ⟨?_, rfl, fun q hq => hq⟩
    intro hmem
    exact hc (List.elem_iff.mpr hmem)

/-- `deleteAux` on success: both auxiliary files are gone and the
database files are untouched. -/
lemma deleteAux_true (faults : String → Bool) (fs : FileSystem)
    (sessionId : String) (fs' : FileSystem)
    (h : deleteAux faults fs sessionId = (fs', true)) :
    walPath sessionId ∉ fs'.auxFiles
    ∧ shmPath sessionId ∉ fs'.auxFiles
    ∧ fs'.dbFiles = fs.dbFiles := by
  unfold deleteAux at h
  by_cases hc : fs.auxFiles.contains (walPath sessionId)
  · rw [if_pos hc] at h
    by_cases hf : faults (walPath sessionId)
    · rw [if_pos hf] at h
      simp at h
    · rw [if_neg hf] at h
      obtain ⟨hshm, hdb, hsub⟩ := deleteShm_true faults _ sessionId fs' h
      refine ⟨?_, hshm, hdb⟩
      intro hmem
      have hq := hsub _ hmem
      simp [removeAuxFile, List.mem_filter] at hq
  · rw [if_neg hc] at h
    obtain ⟨hshm, hdb, hsub⟩ := deleteShm_true faults _ sessionId fs' h
    refine ⟨?_, hshm, hdb⟩
    intro hmem
    exact hc (List.elem_iff.mpr (hsub _ hmem))

/-- C9. When `deleteSession` returns `true`, the primary `.db` file and
the `-wal`/`-shm` auxiliaries are gone, `getSession` returns `null` for
the id, and the session no longer appears in `getAllSessions`. -/
theorem deleteSession_removes (faults : String → Bool) (fs : FileSystem)
    (sessionId : String) (fs' : FileSystem)
    (h : deleteSession faults fs sessionId = (fs', true)) :
    (∀ f ∈ fs'.dbFiles, f.1 ≠ sessionId)
    ∧ walPath sessionId ∉ fs'.auxFiles
    ∧ shmPath sessionId ∉ fs'.auxFiles
    ∧ getSession fs' sessionId = none
    ∧ ∀ s ∈ getAllSessions fs', s.id ≠ sessionId := by
  have hmain : (∀ f ∈ fs'.dbFiles, f.1 ≠ sessionId)
      ∧ walPath sessionId ∉ fs'.auxFiles
      ∧ shmPath sessionId ∉ fs'.auxFiles := by
    unfold deleteSession at h
    by_cases hc : fs.dbFiles.any fun f => f.1 == sessionId
    · rw [if_pos hc] at h
      by_cases hf : faults (dbPath sessionId)
      · rw [if_pos hf] at h
        simp at h
      · rw [if_neg hf] at h
        obtain ⟨hwal, hshm, hdb⟩ := deleteAux_true faults _ sessionId fs' h
        refine ⟨?_, hwal, hshm⟩
        intro f hfm
        rw [hdb] at hfm
        simp only [removeDbFile, List.mem_filter] at hfm
        simpa using hfm.2
    · rw [if_neg hc] at h
      obtain ⟨hwal, hshm, hdb⟩ := deleteAux_true faults _ sessionId fs' h
      refine ⟨?_, hwal, hshm⟩
      intro f hfm
      rw [hdb] at hfm
      intro he
      exact hc (List.any_eq_true.mpr ⟨f, hfm, by simp [he]⟩)
  obtain ⟨hdb, hwal, hshm⟩ := hmain
  refine ⟨hdb, hwal, hshm, ?_, ?_⟩
  · unfold getSession
    have hfind : (fs'.dbFiles.find? fun f => f.1 == sessionId) = none := by
      rw [List.find?_eq_none]
      intro f hf
      simp [hdb f hf]
    rw [hfind]
    rfl
  · intro s hs
    unfold getAllSessions at hs
    rw [(List.mergeSort_perm _ _).mem_iff, List.mem_filterMap] at hs
    obtain ⟨f, hf, hread⟩ := hs
    unfold readSession at hread
    cases hm : f.2.meta.head? with
    | none =>
      rw [hm] at hread
      simp at hread
    | some meta0 =>
      rw [hm] at hread
      simp only [Option.map_some', Option.some.injEq] at hread
      have hid : s.id = f.1 := by rw [← hread]
      rw [hid]
      exact hdb f hf

/-- Closed instance: deleting the only session of `exFs` makes
`getSession` return `null` for it. -/
theorem deleteSession_removes_witness :
    getSession exFsDeleted "s1" = none :=
  (deleteSession_removes (fun _ => false) exFs "s1" exFsDeleted
    (by decide)).2.2.2.1

/-- `deleteShm` fails only when the `-shm` file exists and its removal
throws. -/
lemma deleteShm_false (faults : String → Bool) (fs : FileSystem)
    (sessionId : String)
    (h : (deleteShm faults fs sessionId).2 = false) :
    shmPath sessionId ∈ fs.auxFiles ∧ faults (shmPath sessionId) = true := by
  unfold deleteShm at h
  by_cases hc : fs.auxFiles.contains (shmPath sessionId)
  · rw [if_pos hc] at h
    by_cases hf : faults (shmPath sessionId)
    · exact ⟨List.elem_iff.mp hc, hf⟩
    · rw [if_neg hf] at h
      simp at h
  · rw [if_neg hc] at h
    simp at h

/-- `deleteAux` fails only when an existing auxiliary file's removal
throws. -/
lemma deleteAux_false (faults : String → Bool) (fs : FileSystem)
    (sessionId : String)
    (h : (deleteAux faults fs sessionId).2 = false) :
    (walPath sessionId ∈ fs.auxFiles ∧ faults (walPath sessionId) = true)
    ∨ (shmPath sessionId ∈ fs.auxFiles
        ∧ faults (shmPath sessionId) = true) := by
  unfold deleteAux at h
  by_cases hc : fs.auxFiles.contains (walPath sessionId)
  · rw [if_pos hc] at h
    by_cases hf : faults (walPath sessionId)
    · exact Or.inl ⟨List.elem_iff.mp hc, hf⟩
    · rw [if_neg hf] at h
      obtain ⟨hmem, hfault⟩ := deleteShm_false faults _ sessionId h
      simp only [removeAuxFile, List.mem_filter] at hmem
      exact Or.inr ⟨hmem.1, hfault⟩
  · rw [if_neg hc] at h
    exact Or.inr (deleteShm_false faults fs sessionId h)

/-- C10. Deleting a session with no on-disk artifacts succeeds with
`true` whatever the fault oracle says, and `false` arises only from a
removal attempt that throws on an existing artifact. -/
theorem deleteSession_missing_or_fault (faults : String → Bool)
    (fs : FileSystem) (sessionId : String) :
    ((¬(fs.dbFiles.any fun f => f.1 == sessionId) = true
        ∧ walPath sessionId ∉ fs.auxFiles
        ∧ shmPath sessionId ∉ fs.auxFiles) →
      deleteSession faults fs sessionId = (fs, true))
    ∧ ((deleteSession faults fs sessionId).2 = false →
        ((fs.dbFiles.any fun f => f.1 == sessionId) = true
            ∧ faults (dbPath sessionId) = true)
        ∨ (walPath sessionId ∈ fs.auxFiles
            ∧ faults (walPath sessionId) = true)
        ∨ (shmPath sessionId ∈ fs.auxFiles
            ∧ faults (shmPath sessionId) = true)) := by
  constructor
  · rintro ⟨h1, h2, h3⟩
    unfold deleteSession deleteAux deleteShm
    rw [if_neg h1, if_neg fun hcw => h2 (List.elem_iff.mp hcw),
      if_neg fun hcs => h3 (List.elem_iff.mp hcs)]
  · intro h
    unfold deleteSession at h
    by_cases hc : fs.dbFiles.any fun f => f.1 == sessionId
    · by_cases hf : faults (dbPath sessionId)
      · exact Or.inl ⟨hc, hf⟩
      · rw [if_pos hc, if_neg hf] at h
        rcases deleteAux_false faults _ sessionId h with h' | h'
        · exact Or.inr (Or.inl h')
        · exact Or.inr (Or.inr h')
    · rw [if_neg hc] at h
      rcases deleteAux_false faults fs sessionId h with h' | h'
      · exact Or.inr (Or.inl h')
      · exact Or.inr (Or.inr h')

/-- Closed instance: deleting a session with no artifacts succeeds even
when every removal would throw. -/
theorem deleteSession_missing_or_fault_witness :
    deleteSession (fun _ => true) exFsDeleted "nope" = (exFsDeleted, true) :=
  (deleteSession_missing_or_fault (fun _ => true) exFsDeleted "nope").1
    (by refine ⟨?_, ?_, ?_⟩ <;> decide)

/-! ### Closed instances of the remaining contracts -/

/-- Closed instance of the sum/total contract on `exDb`. -/
theorem getMemberActivity_sum_eq_total_witness :
    (exDb.members.map Member.id).Nodup ∧
    totalNonSystemMessages exDb none
      = exDb.messages.countP (fun msg =>
          isNonSystemMessage exDb msg && inBounds none msg.ts) :=
  ⟨by decide, (getMemberActivity_sum_eq_total exDb none).2 (by decide)⟩

/-- Closed instance of import atomicity: the failed import of `exParse`
returns no session id. -/
theorem importData_atomic_witness :
    (importData exFs "s2" 100 exParse true).2 = none :=
  (importData_atomic exFs "s2" 100 exParse).1

/-- Closed instance of unresolved-sender dropping: importing `exParse`
(one of whose messages has an unknown sender) still succeeds. -/
theorem importData_drops_unresolved_witness :
    (importData exFs "s2" 100 exParse false).2 = some "s2" :=
  (importData_drops_unresolved exFs "s2" 100 exParse).1

/-- Closed instance of the filter-composition contract at a two-sided
filter. -/
theorem evalConds_msgConds_witness :
    (evalConds (msgConds (some ⟨some 3, some 9⟩)) 5 "Alice" = true ↔
      ((∀ s, ((some (⟨some 3, some 9⟩ : TimeFilter)).bind
          TimeFilter.startTs) = some s → s ≤ 5) ∧
       (∀ e, ((some (⟨some 3, some 9⟩ : TimeFilter)).bind
          TimeFilter.endTs) = some e → (5 : Int) ≤ e) ∧
       "Alice" ≠ systemSentinel)) :=
  evalConds_msgConds (some ⟨some 3, some 9⟩) 5 "Alice"

/-- Closed instance of latest-name-wins on the duplicated id of
`exParse`. -/
theorem importData_upsert_latest_name_witness :
    ((importedMembers exParse).find? fun m => m.platform_id == "u1").map
        Member.name
      = (exParse.members.reverse.find? fun i => i.platformId == "u1").map
          ParseMember.name :=
  (importData_upsert_latest_name exParse "u1").2
